import Mathlib

set_option maxRecDepth 100000

/-!
Verification of the HTTP availability/latency probe (`bench.py` and
`bench_async.py`).

The repository contains two near-duplicate implementations of the same
capability.  Both are embedded here:

* `bench.py`: `RequestResult`, `HostStats.add_result`, `min_time` /
  `max_time` / `avg_time`, `fetch_url`, `validate_url`, `test_host` /
  `run_tests` (no concurrency gate), CLI validation in `parse_args`.
* `bench_async.py`: `make_request` (guarded by `asyncio.Semaphore(10)`),
  a start-anchored URL pattern, a `main` without a `--count` check.

Durations (Python floats holding wall-clock differences) are modelled as
rationals; HTTP status codes as naturals; the outcome of the underlying
HTTP attempt as an explicit inductive so that each `except` branch of the
source becomes one constructor case of a total function.
-/

/-- The result record of `bench.py` (dataclass `RequestResult`). -/
structure RequestResult where
  host : String
  success : Bool
  status_code : Option Nat
  duration : ℚ
  error : Option String := none
deriving DecidableEq

/-- The result record of `bench_async.py` (its own dataclass `RequestResult`;
renamed here because the two files declare distinct classes of the same name). -/
structure AsyncRequestResult where
  url : String
  success : Bool
  status : Option Nat
  duration : ℚ
  error : Option String := none
deriving DecidableEq

/-- Outcome of the underlying HTTP attempt in `bench.py.fetch_url`: one
constructor per control path of the `try`/`except` chain (response received,
`aiohttp.ClientError`, `asyncio.TimeoutError`, any other `Exception`). -/
inductive HttpOutcome where
  | response (status : Nat)
  | clientError (msg : String)
  | timeoutErr
  | otherError (msg : String)
deriving DecidableEq

/-- Outcome of the HTTP attempt in `bench_async.py.make_request`:
response received, `asyncio.TimeoutError`, or any other `Exception`. -/
inductive AsyncOutcome where
  | response (status : Nat)
  | timeoutErr
  | exn (msg : String)
deriving DecidableEq

/-- `bench.py` lines 90-130, `ServerBenchmark.fetch_url`.  The wall-clock
elapsed time at the point the outcome is known is the parameter `elapsed`.
Every branch of the source returns a `RequestResult`; no branch raises. -/
def fetch_url (url : String) (o : HttpOutcome) (elapsed : ℚ) : RequestResult :=
  match o with
  | .response s =>
      { host := url, success := decide (200 ≤ s ∧ s < 400), status_code := some s,
        duration := elapsed }
  | .clientError m =>
      { host := url, success := false, status_code := none, duration := elapsed,
        error := some m }
  | .timeoutErr =>
      { host := url, success := false, status_code := none, duration := elapsed,
        error := some "Timeout" }
  | .otherError m =>
      { host := url, success := false, status_code := none, duration := elapsed,
        error := some ("Unexpected error: " ++ m) }

/-- `bench_async.py` lines 24-41, `AsyncHttpBenchmark.make_request` (the
semaphore acquisition around it is modelled separately as `SemStep`). -/
def make_request (url : String) (o : AsyncOutcome) (elapsed : ℚ) : AsyncRequestResult :=
  match o with
  | .response s =>
      { url := url, success := decide (200 ≤ s ∧ s < 400), status := some s,
        duration := elapsed }
  | .timeoutErr =>
      { url := url, success := false, status := none, duration := elapsed,
        error := some "Timeout" }
  | .exn m =>
      { url := url, success := false, status := none, duration := elapsed,
        error := some m }

/-- The per-host accumulator of `bench.py` (dataclass `HostStats`);
`__post_init__` turns the `None` default into the empty list, so a fresh
instance carries `[]`. -/
structure HostStats where
  host : String
  success_count : Nat := 0
  failed_count : Nat := 0
  error_count : Nat := 0
  times : List ℚ := []
deriving DecidableEq

/-- A fresh `HostStats(host=host)` as created in `test_host`. -/
def initStats (host : String) : HostStats :=
  { host := host }

/-- Python truthiness of `result.error` (an `Optional[str]`): `None` and the
empty string are falsy. -/
def errTruthy (r : RequestResult) : Bool :=
  match r.error with
  | none => false
  | some s => s ≠ ""

/-- Python truthiness and range test `result.status_code and 400 <= result.status_code < 600`:
a `None` or `0` status code is falsy, otherwise the chained comparison decides. -/
def failedStatus (r : RequestResult) : Bool :=
  match r.status_code with
  | none => false
  | some s => s ≠ 0 && decide (400 ≤ s) && decide (s < 600)

/-- `bench.py` lines 31-40, `HostStats.add_result`: classify into exactly one
of the error/failed/success buckets, then record the duration when positive. -/
def add_result (st : HostStats) (r : RequestResult) : HostStats :=
  let st1 :=
    if errTruthy r then { st with error_count := st.error_count + 1 }
    else if failedStatus r then { st with failed_count := st.failed_count + 1 }
    else { st with success_count := st.success_count + 1 }
  if 0 < r.duration then { st1 with times := st1.times ++ [r.duration] } else st1

/-- Python `min` over a nonempty list is the left fold of binary `min`;
`min(self.times) if self.times else 0` maps the empty list to `0`. -/
def minOf (l : List ℚ) : ℚ :=
  match l with
  | [] => 0
  | t :: ts => ts.foldl min t

/-- Python `max` counterpart of `minOf`. -/
def maxOf (l : List ℚ) : ℚ :=
  match l with
  | [] => 0
  | t :: ts => ts.foldl max t

/-- `bench.py` lines 42-44, property `min_time`. -/
def min_time (st : HostStats) : ℚ := minOf st.times

/-- `bench.py` lines 46-48, property `max_time`. -/
def max_time (st : HostStats) : ℚ := maxOf st.times

/-- `bench.py` lines 50-52, property `avg_time`:
`sum(self.times) / len(self.times) if self.times else 0`. -/
def avg_time (st : HostStats) : ℚ :=
  if st.times = [] then 0 else st.times.sum / st.times.length

/-- The fold of a batch of results into a `HostStats`, as performed by the
`for result in results: self.stats[host].add_result(result)` loop of
`test_host` (lines 146-147). -/
def foldResults (st : HostStats) (rs : List RequestResult) : HostStats :=
  rs.foldl add_result st

/-- Bucket predicates induced by the `if`/`elif`/`else` of `add_result`. -/
def errBucket (r : RequestResult) : Bool := errTruthy r

def failBucket (r : RequestResult) : Bool := !errTruthy r && failedStatus r

def succBucket (r : RequestResult) : Bool := !errTruthy r && !failedStatus r

def totalFolded (st : HostStats) : Nat :=
  st.success_count + st.failed_count + st.error_count

lemma add_result_success (st : HostStats) (r : RequestResult) :
    (add_result st r).success_count = st.success_count + (if succBucket r then 1 else 0) := by
  simp only [add_result, succBucket]
  by_cases h1 : errTruthy r <;> by_cases h2 : failedStatus r <;>
    simp [h1, h2] <;> split <;> rfl

lemma add_result_failed (st : HostStats) (r : RequestResult) :
    (add_result st r).failed_count = st.failed_count + (if failBucket r then 1 else 0) := by
  simp only [add_result, failBucket]
  by_cases h1 : errTruthy r <;> by_cases h2 : failedStatus r <;>
    simp [h1, h2] <;> split <;> rfl

lemma add_result_error (st : HostStats) (r : RequestResult) :
    (add_result st r).error_count = st.error_count + (if errBucket r then 1 else 0) := by
  simp only [add_result, errBucket]
  by_cases h1 : errTruthy r <;> by_cases h2 : failedStatus r <;>
    simp [h1, h2] <;> split <;> rfl

lemma add_result_times (st : HostStats) (r : RequestResult) :
    (add_result st r).times = st.times ++ (if 0 < r.duration then [r.duration] else []) := by
  simp only [add_result]
  by_cases h1 : errTruthy r <;> by_cases h2 : failedStatus r <;>
    simp [h1, h2] <;> split <;> simp

lemma add_result_total (st : HostStats) (r : RequestResult) :
    totalFolded (add_result st r) = totalFolded st + 1 := by
  simp only [totalFolded, add_result]
  by_cases h1 : errTruthy r <;> by_cases h2 : failedStatus r <;>
    simp [h1, h2] <;> split <;> simp <;> omega

lemma foldResults_total (rs : List RequestResult) :
    ∀ st : HostStats, totalFolded (foldResults st rs) = totalFolded st + rs.length := by
  induction rs with
  | nil => intro st; simp [foldResults]
  | cons r rs ih =>
      intro st
      simp only [foldResults, List.foldl_cons, List.length_cons]
      have := ih (add_result st r)
      simp only [foldResults] at this
      rw [this, add_result_total]
      omega

lemma foldResults_success (rs : List RequestResult) :
    ∀ st : HostStats,
      (foldResults st rs).success_count = st.success_count + rs.countP succBucket := by
  induction rs with
  | nil => intro st; simp [foldResults]
  | cons r rs ih =>
      intro st
      simp only [foldResults, List.foldl_cons]
      have := ih (add_result st r)
      simp only [foldResults] at this
      rw [this, add_result_success, List.countP_cons]
      by_cases h : succBucket r <;> simp [h] <;> omega

lemma foldResults_failed (rs : List RequestResult) :
    ∀ st : HostStats,
      (foldResults st rs).failed_count = st.failed_count + rs.countP failBucket := by
  induction rs with
  | nil => intro st; simp [foldResults]
  | cons r rs ih =>
      intro st
      simp only [foldResults, List.foldl_cons]
      have := ih (add_result st r)
      simp only [foldResults] at this
      rw [this, add_result_failed, List.countP_cons]
      by_cases h : failBucket r <;> simp [h] <;> omega

lemma foldResults_error (rs : List RequestResult) :
    ∀ st : HostStats,
      (foldResults st rs).error_count = st.error_count + rs.countP errBucket := by
  induction rs with
  | nil => intro st; simp [foldResults]
  | cons r rs ih =>
      intro st
      simp only [foldResults, List.foldl_cons]
      have := ih (add_result st r)
      simp only [foldResults] at this
      rw [this, add_result_error, List.countP_cons]
      by_cases h : errBucket r <;> simp [h] <;> omega

lemma foldResults_times (rs : List RequestResult) :
    ∀ st : HostStats,
      (foldResults st rs).times
        = st.times ++ (rs.filter (fun r => 0 < r.duration)).map (fun r => r.duration) := by
  induction rs with
  | nil => intro st; simp [foldResults]
  | cons r rs ih =>
      intro st
      simp only [foldResults, List.foldl_cons]
      have := ih (add_result st r)
      simp only [foldResults] at this
      rw [this, add_result_times, List.filter_cons]
      by_cases h : 0 < r.duration <;> simp [h]

/-- Claim C1: for every URL and every outcome of the underlying HTTP attempt
(response, client error, timeout, or any other fault) both probe operations
return a result record — each `except` branch of the source is a value-returning
case of a total function, so no outcome propagates a fault, and the outcome is
captured in the fields of the returned record. -/
theorem claim1_probe_total_captures :
    (∀ (url : String) (o : HttpOutcome) (t : ℚ),
      ∃ r : RequestResult, fetch_url url o t = r ∧ r.host = url ∧ r.duration = t ∧
        (match o with
         | .response s => r.status_code = some s ∧ r.error = none ∧
             r.success = decide (200 ≤ s ∧ s < 400)
         | .clientError m => r.status_code = none ∧ r.error = some m ∧ r.success = false
         | .timeoutErr => r.status_code = none ∧ r.error = some "Timeout" ∧
             r.success = false
         | .otherError m => r.status_code = none ∧
             r.error = some ("Unexpected error: " ++ m) ∧ r.success = false)) ∧
    (∀ (url : String) (o : AsyncOutcome) (t : ℚ),
      ∃ r : AsyncRequestResult, make_request url o t = r ∧ r.url = url ∧ r.duration = t ∧
        (match o with
         | .response s => r.status = some s ∧ r.error = none ∧
             r.success = decide (200 ≤ s ∧ s < 400)
         | .timeoutErr => r.status = none ∧ r.error = some "Timeout" ∧ r.success = false
         | .exn m => r.status = none ∧ r.error = some m ∧ r.success = false)) := by
  constructor
  · intro url o t
    cases o <;> exact ⟨_, rfl, rfl, rfl, rfl, rfl, rfl⟩
  · intro url o t
    cases o <;> exact ⟨_, rfl, rfl, rfl, rfl, rfl, rfl⟩

/-- Interpretation of "r.status is in [lo, hi)" for an optional status code. -/
def statusIn (s : Option Nat) (lo hi : Nat) : Prop :=
  match s with
  | none => False
  | some v => lo ≤ v ∧ v < hi

instance (s : Option Nat) (lo hi : Nat) : Decidable (statusIn s lo hi) := by
  unfold statusIn
  cases s <;> infer_instance

/-- Exactly one of three alternatives holds. -/
def exactlyOneOfThree (a b c : Prop) : Prop :=
  (a ∨ b ∨ c) ∧ ¬(a ∧ b) ∧ ¬(a ∧ c) ∧ ¬(b ∧ c)

instance (a b c : Prop) [Decidable a] [Decidable b] [Decidable c] :
    Decidable (exactlyOneOfThree a b c) := by
  unfold exactlyOneOfThree
  infer_instance

/-- Claim C2, counterexample: a received response with status 999 (outside
[200,600); such nonstandard codes are returned verbatim by real servers)
produces a `RequestResult` with `success = false`, `status_code = some 999`,
`error = none` — none of the claim's three cases holds, so the claimed
"exactly one of three" trichotomy fails on this probe result. -/
theorem claim2_counterexample :
    ¬ exactlyOneOfThree
        ((fetch_url "http://a.bc" (.response 999) 1).success = true ∧
          statusIn (fetch_url "http://a.bc" (.response 999) 1).status_code 200 400)
        ((fetch_url "http://a.bc" (.response 999) 1).success = false ∧
          statusIn (fetch_url "http://a.bc" (.response 999) 1).status_code 400 600)
        ((fetch_url "http://a.bc" (.response 999) 1).success = false ∧
          (fetch_url "http://a.bc" (.response 999) 1).error ≠ none) := by
  decide

/-- Claim C2, amended: for every `RequestResult` produced by `fetch_url`
(and every result of `make_request`), exactly one of these three cases holds:
success with a status in [200,400); non-success with a status present but
outside [200,400) (this covers [400,600) and any other out-of-range code);
non-success with no status and the error field set. -/
theorem claim2_probe_result_trichotomy :
    (∀ (url : String) (o : HttpOutcome) (t : ℚ),
      exactlyOneOfThree
        ((fetch_url url o t).success = true ∧
          statusIn (fetch_url url o t).status_code 200 400)
        ((fetch_url url o t).success = false ∧
          (∃ s, (fetch_url url o t).status_code = some s ∧ ¬(200 ≤ s ∧ s < 400)))
        ((fetch_url url o t).success = false ∧
          (fetch_url url o t).status_code = none ∧ (fetch_url url o t).error ≠ none)) ∧
    (∀ (url : String) (o : AsyncOutcome) (t : ℚ),
      exactlyOneOfThree
        ((make_request url o t).success = true ∧
          statusIn (make_request url o t).status 200 400)
        ((make_request url o t).success = false ∧
          (∃ s, (make_request url o t).status = some s ∧ ¬(200 ≤ s ∧ s < 400)))
        ((make_request url o t).success = false ∧
          (make_request url o t).status = none ∧ (make_request url o t).error ≠ none)) := by
  constructor
  · intro url o t
    cases o with
    | response s =>
        by_cases h : 200 ≤ s ∧ s < 400
        · exact ⟨Or.inl ⟨by simp [fetch_url, h], by simp [fetch_url, statusIn]; omega⟩,
            fun ⟨⟨h1, _⟩, ⟨h2, _⟩⟩ => by simp [fetch_url] at h1 h2; omega,
            fun ⟨_, _, h2, _⟩ => by simp [fetch_url] at h2,
            fun ⟨_, _, h2, _⟩ => by simp [fetch_url] at h2⟩
        · exact ⟨Or.inr (Or.inl ⟨by simp [fetch_url, h], s, by simp [fetch_url], h⟩),
            fun ⟨⟨h1, _⟩, _⟩ => by simp [fetch_url, h] at h1,
            fun ⟨⟨h1, _⟩, _⟩ => by simp [fetch_url, h] at h1,
            fun ⟨_, _, h2, _⟩ => by simp [fetch_url] at h2⟩
    | clientError m =>
        exact ⟨Or.inr (Or.inr ⟨rfl, rfl, by simp [fetch_url]⟩),
          fun ⟨⟨h1, _⟩, _⟩ => by simp [fetch_url] at h1,
          fun ⟨⟨h1, _⟩, _⟩ => by simp [fetch_url] at h1,
          fun ⟨⟨_, s, h2, _⟩, _⟩ => by simp [fetch_url] at h2⟩
    | timeoutErr =>
        exact ⟨Or.inr (Or.inr ⟨rfl, rfl, by simp [fetch_url]⟩),
          fun ⟨⟨h1, _⟩, _⟩ => by simp [fetch_url] at h1,
          fun ⟨⟨h1, _⟩, _⟩ => by simp [fetch_url] at h1,
          fun ⟨⟨_, s, h2, _⟩, _⟩ => by simp [fetch_url] at h2⟩
    | otherError m =>
        exact ⟨Or.inr (Or.inr ⟨rfl, rfl, by simp [fetch_url]⟩),
          fun ⟨⟨h1, _⟩, _⟩ => by simp [fetch_url] at h1,
          fun ⟨⟨h1, _⟩, _⟩ => by simp [fetch_url] at h1,
          fun ⟨⟨_, s, h2, _⟩, _⟩ => by simp [fetch_url] at h2⟩
  · intro url o t
    cases o with
    | response s =>
        by_cases h : 200 ≤ s ∧ s < 400
        · exact ⟨Or.inl ⟨by simp [make_request, h], by simp [make_request, statusIn]; omega⟩,
            fun ⟨⟨h1, _⟩, ⟨h2, _⟩⟩ => by simp [make_request] at h1 h2; omega,
            fun ⟨_, _, h2, _⟩ => by simp [make_request] at h2,
            fun ⟨_, _, h2, _⟩ => by simp [make_request] at h2⟩
        · exact ⟨Or.inr (Or.inl ⟨by simp [make_request, h], s, by simp [make_request], h⟩),
            fun ⟨⟨h1, _⟩, _⟩ => by simp [make_request, h] at h1,
            fun ⟨⟨h1, _⟩, _⟩ => by simp [make_request, h] at h1,
            fun ⟨_, _, h2, _⟩ => by simp [make_request] at h2⟩
    | timeoutErr =>
        exact ⟨Or.inr (Or.inr ⟨rfl, rfl, by simp [make_request]⟩),
          fun ⟨⟨h1, _⟩, _⟩ => by simp [make_request] at h1,
          fun ⟨⟨h1, _⟩, _⟩ => by simp [make_request] at h1,
          fun ⟨⟨_, s, h2, _⟩, _⟩ => by simp [make_request] at h2⟩
    | exn m =>
        exact ⟨Or.inr (Or.inr ⟨rfl, rfl, by simp [make_request]⟩),
          fun ⟨⟨h1, _⟩, _⟩ => by simp [make_request] at h1,
          fun ⟨⟨h1, _⟩, _⟩ => by simp [make_request] at h1,
          fun ⟨⟨_, s, h2, _⟩, _⟩ => by simp [make_request] at h2⟩

/-- Claim C3: folding any finite sequence of results into a fresh `HostStats`
(and, since the sequence is arbitrary, after every prefix of fold steps)
maintains `success_count + failed_count + error_count = number folded`;
`add_result` takes exactly one branch of its `if`/`elif`/`else` per result. -/
theorem claim3_count_invariant (host : String) (rs : List RequestResult) :
    (foldResults (initStats host) rs).success_count
      + (foldResults (initStats host) rs).failed_count
      + (foldResults (initStats host) rs).error_count = rs.length := by
  have h := foldResults_total rs (initStats host)
  simp only [totalFolded, initStats] at h
  simpa using h

/-- Claim C5, counterexample: a probe that times out after 10 seconds produces
a result whose positive duration is appended to `times` by `add_result`
(`if result.duration > 0`), so for an all-timeout host the latency sequence is
not empty and the average is the elapsed time, not 0 — refuting the claim's
"latency sequence empty, average latency 0" at count = 1. -/
theorem claim5_counterexample :
    (foldResults (initStats "http://a.bc")
        [fetch_url "http://a.bc" .timeoutErr 10]).error_count = 1 ∧
    (foldResults (initStats "http://a.bc")
        [fetch_url "http://a.bc" .timeoutErr 10]).times ≠ [] ∧
    avg_time (foldResults (initStats "http://a.bc")
        [fetch_url "http://a.bc" .timeoutErr 10]) ≠ 0 := by
  refine ⟨by decide, by decide, ?_⟩
  have : avg_time (foldResults (initStats "http://a.bc")
      [fetch_url "http://a.bc" .timeoutErr 10]) = 10 := by
    simp [foldResults, initStats, add_result, fetch_url, errTruthy, avg_time]
  rw [this]
  norm_num

/-- Claim C5, amended: for a host whose `count` probes all time out, the
resulting `HostStats` has `error_count = count` and zero success and failed
counts; but the latency sequence is not empty — it records every positive
elapsed duration of the timed-out probes (so the average is their mean, not 0). -/
theorem claim5_all_timeouts (host : String) (ds : List ℚ) :
    (foldResults (initStats host) (ds.map (fun d => fetch_url host .timeoutErr d))).error_count
        = ds.length ∧
    (foldResults (initStats host) (ds.map (fun d => fetch_url host .timeoutErr d))).success_count
        = 0 ∧
    (foldResults (initStats host) (ds.map (fun d => fetch_url host .timeoutErr d))).failed_count
        = 0 ∧
    (foldResults (initStats host) (ds.map (fun d => fetch_url host .timeoutErr d))).times
        = ds.filter (fun d => 0 < d) := by
  refine ⟨?_, ?_, ?_, ?_⟩
  · rw [foldResults_error]
    simp only [initStats]
    rw [List.countP_map]
    simp [errBucket, errTruthy, fetch_url, Function.comp]
  · rw [foldResults_success]
    simp only [initStats]
    rw [List.countP_map]
    simp [succBucket, errTruthy, fetch_url, Function.comp]
  · rw [foldResults_failed]
    simp only [initStats]
    rw [List.countP_map]
    simp [failBucket, errTruthy, fetch_url, Function.comp]
  · rw [foldResults_times]
    simp only [initStats]
    rw [List.filter_map, List.map_map]
    simp only [Function.comp_def, fetch_url]
    simp

/-- Claim C9: a `HostStats` whose latency list is empty reports 0 for the
derived minimum, maximum and average (the source guards each property with
`if self.times else 0`, so the empty case is a value, not an exception). -/
theorem claim9_empty_latency_zero (st : HostStats) (h : st.times = []) :
    min_time st = 0 ∧ max_time st = 0 ∧ avg_time st = 0 := by
  refine ⟨?_, ?_, ?_⟩ <;> simp [min_time, max_time, avg_time, minOf, maxOf, h]

/-- Witness for C9 at a concrete empty-latency accumulator. -/
theorem claim9_witness :
    min_time (initStats "http://a.bc") = 0 ∧ max_time (initStats "http://a.bc") = 0 ∧
      avg_time (initStats "http://a.bc") = 0 :=
  claim9_empty_latency_zero (initStats "http://a.bc") rfl

lemma foldl_min_mem (ts : List ℚ) : ∀ t : ℚ, ts.foldl min t ∈ t :: ts := by
  induction ts with
  | nil => intro t; simp
  | cons a ts ih =>
      intro t
      rw [List.foldl_cons]
      rcases List.mem_cons.mp (ih (min t a)) with h1 | h1
      · rw [h1]
        rcases min_choice t a with h2 | h2 <;> rw [h2] <;> simp
      · exact List.mem_cons_of_mem _ (List.mem_cons_of_mem _ h1)

lemma foldl_min_le (ts : List ℚ) : ∀ t x : ℚ, x ∈ t :: ts → ts.foldl min t ≤ x := by
  induction ts with
  | nil =>
      intro t x hx
      simp only [List.foldl_nil]
      rcases List.mem_cons.mp hx with h | h
      · exact le_of_eq h.symm
      · simp at h
  | cons a ts ih =>
      intro t x hx
      rw [List.foldl_cons]
      rcases List.mem_cons.mp hx with h | h
      · rw [h]
        exact le_trans (ih (min t a) (min t a) (List.mem_cons_self _ _)) (min_le_left _ _)
      · rcases List.mem_cons.mp h with h2 | h2
        · rw [h2]
          exact le_trans (ih (min t a) (min t a) (List.mem_cons_self _ _)) (min_le_right _ _)
        · exact ih (min t a) x (List.mem_cons_of_mem _ h2)

lemma foldl_max_mem (ts : List ℚ) : ∀ t : ℚ, ts.foldl max t ∈ t :: ts := by
  induction ts with
  | nil => intro t; simp
  | cons a ts ih =>
      intro t
      rw [List.foldl_cons]
      rcases List.mem_cons.mp (ih (max t a)) with h1 | h1
      · rw [h1]
        rcases max_choice t a with h2 | h2 <;> rw [h2] <;> simp
      · exact List.mem_cons_of_mem _ (List.mem_cons_of_mem _ h1)

lemma le_foldl_max (ts : List ℚ) : ∀ t x : ℚ, x ∈ t :: ts → x ≤ ts.foldl max t := by
  induction ts with
  | nil =>
      intro t x hx
      simp only [List.foldl_nil]
      rcases List.mem_cons.mp hx with h | h
      · exact le_of_eq h
      · simp at h
  | cons a ts ih =>
      intro t x hx
      rw [List.foldl_cons]
      rcases List.mem_cons.mp hx with h | h
      · rw [h]
        exact le_trans (le_max_left _ _) (ih (max t a) (max t a) (List.mem_cons_self _ _))
      · rcases List.mem_cons.mp h with h2 | h2
        · rw [h2]
          exact le_trans (le_max_right _ _) (ih (max t a) (max t a) (List.mem_cons_self _ _))
        · exact ih (max t a) x (List.mem_cons_of_mem _ h2)

lemma minOf_perm {l₁ l₂ : List ℚ} (h : l₁.Perm l₂) : minOf l₁ = minOf l₂ := by
  cases l₁ with
  | nil =>
      have : l₂ = [] := h.symm.eq_nil
      rw [this]
  | cons t ts =>
      cases l₂ with
      | nil => exact absurd h.eq_nil (by simp)
      | cons u us =>
          simp only [minOf]
          apply le_antisymm
          · exact foldl_min_le ts t _ (h.mem_iff.mpr (foldl_min_mem us u))
          · exact foldl_min_le us u _ (h.mem_iff.mp (foldl_min_mem ts t))

lemma maxOf_perm {l₁ l₂ : List ℚ} (h : l₁.Perm l₂) : maxOf l₁ = maxOf l₂ := by
  cases l₁ with
  | nil =>
      have : l₂ = [] := h.symm.eq_nil
      rw [this]
  | cons t ts =>
      cases l₂ with
      | nil => exact absurd h.eq_nil (by simp)
      | cons u us =>
          simp only [maxOf]
          apply le_antisymm
          · exact le_foldl_max us u _ (h.mem_iff.mp (foldl_max_mem ts t))
          · exact le_foldl_max ts t _ (h.mem_iff.mpr (foldl_max_mem us u))

lemma foldResults_times_perm (host : String) {rs₁ rs₂ : List RequestResult}
    (h : rs₁.Perm rs₂) :
    (foldResults (initStats host) rs₁).times.Perm (foldResults (initStats host) rs₂).times := by
  rw [foldResults_times, foldResults_times]
  simp only [initStats, List.nil_append]
  exact (h.filter _).map _

/-- Claim C8: folding a sequence of results and any permutation of it into
fresh `HostStats` instances yields identical success/failed/error counts and
identical min, max and average latency (the reflexive case is folding the same
sequence twice).  Each result's bucket depends only on the result, so counts
are `countP` values; the latency lists are permutations of each other, and
min/max/sum/length are permutation-invariant. -/
theorem claim8_fold_perm_invariant (host : String) (rs₁ rs₂ : List RequestResult)
    (h : rs₁.Perm rs₂) :
    (foldResults (initStats host) rs₁).success_count
        = (foldResults (initStats host) rs₂).success_count ∧
    (foldResults (initStats host) rs₁).failed_count
        = (foldResults (initStats host) rs₂).failed_count ∧
    (foldResults (initStats host) rs₁).error_count
        = (foldResults (initStats host) rs₂).error_count ∧
    min_time (foldResults (initStats host) rs₁) = min_time (foldResults (initStats host) rs₂) ∧
    max_time (foldResults (initStats host) rs₁) = max_time (foldResults (initStats host) rs₂) ∧
    avg_time (foldResults (initStats host) rs₁) = avg_time (foldResults (initStats host) rs₂) := by
  have htimes := foldResults_times_perm host h
  refine ⟨?_, ?_, ?_, ?_, ?_, ?_⟩
  · rw [foldResults_success, foldResults_success, h.countP_eq]
  · rw [foldResults_failed, foldResults_failed, h.countP_eq]
  · rw [foldResults_error, foldResults_error, h.countP_eq]
  · exact minOf_perm htimes
  · exact maxOf_perm htimes
  · have hlen := htimes.length_eq
    have hsum := htimes.sum_eq
    unfold avg_time
    by_cases h1 : (foldResults (initStats host) rs₁).times = []
    · have h2 : (foldResults (initStats host) rs₂).times = [] := by
        have := htimes.length_eq
        rw [h1] at this
        exact List.length_eq_zero.mp this.symm
      simp [h1, h2]
    · have h2 : (foldResults (initStats host) rs₂).times ≠ [] := by
        intro hc
        apply h1
        have hl := htimes.length_eq
        rw [hc] at hl
        exact List.length_eq_zero.mp hl
      simp [h1, h2, hsum, hlen]

/-- Witness for C8: a success result and a timeout result folded in both
orders give identical statistics. -/
theorem claim8_witness :
    ([fetch_url "http://a.bc" (.response 200) 1, fetch_url "http://a.bc" .timeoutErr 2].Perm
      [fetch_url "http://a.bc" .timeoutErr 2, fetch_url "http://a.bc" (.response 200) 1]) ∧
    ((foldResults (initStats "http://a.bc")
        [fetch_url "http://a.bc" (.response 200) 1, fetch_url "http://a.bc" .timeoutErr 2]).success_count
      = (foldResults (initStats "http://a.bc")
        [fetch_url "http://a.bc" .timeoutErr 2, fetch_url "http://a.bc" (.response 200) 1]).success_count ∧
    (foldResults (initStats "http://a.bc")
        [fetch_url "http://a.bc" (.response 200) 1, fetch_url "http://a.bc" .timeoutErr 2]).failed_count
      = (foldResults (initStats "http://a.bc")
        [fetch_url "http://a.bc" .timeoutErr 2, fetch_url "http://a.bc" (.response 200) 1]).failed_count ∧
    (foldResults (initStats "http://a.bc")
        [fetch_url "http://a.bc" (.response 200) 1, fetch_url "http://a.bc" .timeoutErr 2]).error_count
      = (foldResults (initStats "http://a.bc")
        [fetch_url "http://a.bc" .timeoutErr 2, fetch_url "http://a.bc" (.response 200) 1]).error_count ∧
    min_time (foldResults (initStats "http://a.bc")
        [fetch_url "http://a.bc" (.response 200) 1, fetch_url "http://a.bc" .timeoutErr 2])
      = min_time (foldResults (initStats "http://a.bc")
        [fetch_url "http://a.bc" .timeoutErr 2, fetch_url "http://a.bc" (.response 200) 1]) ∧
    max_time (foldResults (initStats "http://a.bc")
        [fetch_url "http://a.bc" (.response 200) 1, fetch_url "http://a.bc" .timeoutErr 2])
      = max_time (foldResults (initStats "http://a.bc")
        [fetch_url "http://a.bc" .timeoutErr 2, fetch_url "http://a.bc" (.response 200) 1]) ∧
    avg_time (foldResults (initStats "http://a.bc")
        [fetch_url "http://a.bc" (.response 200) 1, fetch_url "http://a.bc" .timeoutErr 2])
      = avg_time (foldResults (initStats "http://a.bc")
        [fetch_url "http://a.bc" .timeoutErr 2, fetch_url "http://a.bc" (.response 200) 1])) :=
  ⟨List.Perm.swap (fetch_url "http://a.bc" .timeoutErr 2)
      (fetch_url "http://a.bc" (.response 200) 1) [],
   claim8_fold_perm_invariant "http://a.bc" _ _
     (List.Perm.swap (fetch_url "http://a.bc" .timeoutErr 2)
       (fetch_url "http://a.bc" (.response 200) 1) [])⟩

/-- ASCII letter test for the character classes of the two URL patterns. -/
def isAsciiLetter (c : Char) : Bool :=
  ('a' ≤ c && c ≤ 'z') || ('A' ≤ c && c ≤ 'Z')

def isAsciiDigit (c : Char) : Bool :=
  '0' ≤ c && c ≤ '9'

def isAlnumChar (c : Char) : Bool :=
  isAsciiLetter c || isAsciiDigit c

/-- Python regex word character over the ASCII range (the candidate URLs
considered here are ASCII strings). -/
def isWordChar (c : Char) : Bool :=
  isAlnumChar c || c = '_'

def isHexChar (c : Char) : Bool :=
  isAsciiDigit c || ('a' ≤ c && c ≤ 'f') || ('A' ≤ c && c ≤ 'F')

/-- Host character class of the `bench.py` pattern. -/
def hostClassChar (c : Char) : Bool :=
  c = '-' || isAlnumChar c || ("@:%._+~#=".toList).contains c

/-- TLD character class of the `bench.py` pattern. -/
def tldClassChar (c : Char) : Bool :=
  isAlnumChar c || c = '(' || c = ')'

/-- Tail (path/query/fragment) character class of the `bench.py` pattern. -/
def tailClassChar (c : Char) : Bool :=
  c = '-' || isAlnumChar c || c = '(' || c = ')' || ("@:%_+.~#?&/=".toList).contains c

/-- Character class of the `bench_async.py` pattern atoms. -/
def asyncClassChar (c : Char) : Bool :=
  c = '-' || isWordChar c || c = '.'

/-- The start-anchored scheme part shared by both patterns: when the input
begins with one of the two scheme spellings, return what follows it (the two
conditions are mutually exclusive, so checking the shorter spelling first is
equivalent to the pattern's optional letter). -/
def schemeStrip (cs : List Char) : Option (List Char) :=
  if cs.take 7 = "http://".toList then some (cs.drop 7)
  else if cs.take 8 = "https://".toList then some (cs.drop 8)
  else none

/-- The word-boundary test sitting between the TLD and the tail of the
`bench.py` pattern: `prev` is the character just before the boundary position
and `rest` is what follows it; past the end of the subject counts as non-word. -/
def boundaryOk (prev : Char) (rest : List Char) : Bool :=
  isWordChar prev != (match rest with | [] => false | c :: _ => isWordChar c)

/-- After the literal dot of the `bench.py` pattern: a TLD of 1 to 6 characters
of the TLD class, the word boundary, then a tail of permitted characters
running to the end of the subject (the pattern's trailing anchor). -/
def tldSplit (cs : List Char) : Bool :=
  (List.range' 1 6).any fun t =>
    decide (t ≤ cs.length) && (cs.take t).all tldClassChar &&
    boundaryOk ((cs.take t).getLastD ' ') (cs.drop t) &&
    (cs.drop t).all tailClassChar

/-- A host of 1 to 256 characters of the host class followed by a literal dot;
all split points are tried, as the pattern's backtracking would. -/
def hostSplit (cs : List Char) : Bool :=
  (List.range' 1 256).any fun h =>
    match cs.drop h with
    | '.' :: rest => (cs.take h).all hostClassChar && tldSplit rest
    | _ => false

/-- The optional `www.` of the `bench.py` pattern, then host, dot, TLD,
boundary and tail; both readings of the optional part are tried. -/
def afterScheme (cs : List Char) : Bool :=
  hostSplit cs || (cs.take 4 = "www.".toList && hostSplit (cs.drop 4))

/-- A match of the whole `bench.py` pattern body against the whole subject. -/
def benchPatternFull (cs : List Char) : Bool :=
  match schemeStrip cs with
  | some rest => afterScheme rest
  | none => false

/-- `bench.py` lines 56-63, `ServerBenchmark.validate_url`: `re.match` of a
pattern anchored at both ends.  In Python the trailing anchor also matches
just before a final newline, so a subject ending in a newline is accepted
when the part before it matches. -/
def validate_url (s : String) : Bool :=
  benchPatternFull s.data ||
  (match s.data.getLast? with
   | some c => c = '\n' && benchPatternFull s.data.dropLast
   | none => false)

/-- One atom of the repeated group of the `bench_async.py` pattern at the head
of the input.  Since the percent sign is not in the plain character class, the
alternation is deterministic: a percent sign can only open a two-digit escape. -/
def asyncHeadAtom (cs : List Char) : Bool :=
  match cs with
  | [] => false
  | c :: rest =>
      if c = '%' then
        match rest with
        | a :: b :: _ => isHexChar a && isHexChar b
        | _ => false
      else asyncClassChar c

/-- `bench_async.py` line 22 as used by `main` (line 142): `url_pattern.match`
with a pattern anchored only at the start, so acceptance means the scheme is
present and at least one atom follows — whatever comes after is ignored. -/
def async_url_match (s : String) : Bool :=
  match schemeStrip s.data with
  | some rest => asyncHeadAtom rest
  | none => false

/-- A nonempty sequence of atoms of the `bench_async.py` pattern covering the
whole input (deterministic for the same reason as `asyncHeadAtom`). -/
def asyncAtomsAll : List Char → Bool
  | [] => true
  | c :: rest =>
      if c = '%' then
        match rest with
        | a :: b :: rest2 => isHexChar a && isHexChar b && asyncAtomsAll rest2
        | _ => false
      else asyncClassChar c && asyncAtomsAll rest

/-- A match of the whole `bench_async.py` pattern against the entire string —
the claim's notion of "entire content matches the URL pattern" for that
pattern, used to compare with what `async_url_match` actually accepts. -/
def asyncPatternFull (s : String) : Bool :=
  match schemeStrip s.data with
  | some rest => !rest.isEmpty && asyncAtomsAll rest
  | none => false

lemma schemeStrip_append (cs t : List Char) :
    ∀ rest, schemeStrip cs = some rest → schemeStrip (cs ++ t) = some (rest ++ t) := by
  intro rest h
  unfold schemeStrip at h ⊢
  by_cases h7 : cs.take 7 = "http://".toList
  · have hl7 : (cs.take 7).length = 7 := by rw [h7]; rfl
    rw [List.length_take] at hl7
    have hlen : 7 ≤ cs.length := by
      rcases Nat.le_total 7 cs.length with hh | hh
      · exact hh
      · rw [Nat.min_eq_right hh] at hl7; omega
    rw [if_pos h7] at h
    rw [List.take_append_of_le_length hlen, if_pos h7,
      List.drop_append_of_le_length hlen]
    injection h with h
    rw [h]
  · by_cases h8 : cs.take 8 = "https://".toList
    · have hl8 : (cs.take 8).length = 8 := by rw [h8]; rfl
      rw [List.length_take] at hl8
      have hlen : 8 ≤ cs.length := by
        rcases Nat.le_total 8 cs.length with hh | hh
        · exact hh
        · rw [Nat.min_eq_right hh] at hl8; omega
      have h7' : (cs ++ t).take 7 ≠ "http://".toList := by
        rw [List.take_append_of_le_length (by omega)]
        have : cs.take 7 = "https:/".toList := by
          have h77 : (cs.take 8).take 7 = cs.take 7 := by
            rw [List.take_take]
            norm_num
          rw [← h77, h8]
          rfl
        rw [this]
        decide
      rw [if_neg h7, if_pos h8] at h
      rw [if_neg h7', List.take_append_of_le_length hlen, if_pos h8,
        List.drop_append_of_le_length hlen]
      injection h with h
      rw [h]
    · rw [if_neg h7, if_neg h8] at h
      cases h

lemma asyncHeadAtom_append (cs t : List Char) (h : asyncHeadAtom cs = true) :
    asyncHeadAtom (cs ++ t) = true := by
  cases cs with
  | nil => exact absurd h (by simp [asyncHeadAtom])
  | cons c rest =>
      simp only [asyncHeadAtom, List.cons_append] at h ⊢
      by_cases hc : c = '%'
      · rw [if_pos hc] at h ⊢
        cases rest with
        | nil => simp at h
        | cons a rest2 =>
            cases rest2 with
            | nil => simp at h
            | cons b rest3 => simpa using h
      · rw [if_neg hc] at h ⊢
        exact h

/-- Claim C6, counterexample: the `bench_async.py` validator accepts a valid
URL followed by extra characters even though its entire content does not match
the pattern, and accepts a scheme-plus-host string with no TLD structure that
the anchored `bench.py` validator rejects — so "the URL validator accepts only
strings whose entire content matches" fails on the unanchored variant. -/
theorem claim6_counterexample :
    async_url_match "http://a.bc hello" = true ∧
    asyncPatternFull "http://a.bc hello" = false ∧
    async_url_match "http://localhost" = true ∧
    validate_url "http://localhost" = false := by
  refine ⟨by decide, by decide, by decide, by decide⟩

/-- Claim C6, amended: `bench.py.validate_url` anchors at both ends (it accepts
a well-formed URL and rejects the same URL followed by extra characters),
while the `bench_async.py` pattern is anchored only at the start: any string it
accepts remains accepted when arbitrary characters are appended.  Both
validators are pure functions of their input (they are plain functions here). -/
theorem claim6_anchoring (s t : String) (h : async_url_match s = true) :
    async_url_match (s ++ t) = true ∧
    validate_url "http://example.com" = true ∧
    validate_url ("http://example.com" ++ " hello") = false := by
  refine ⟨?_, by decide, by decide⟩
  unfold async_url_match at h ⊢
  rw [String.data_append]
  cases hs : schemeStrip s.data with
  | none => rw [hs] at h; cases h
  | some rest =>
      rw [hs] at h
      rw [schemeStrip_append s.data t.data rest hs]
      exact asyncHeadAtom_append rest t.data h

/-- Witness for C6 at a concrete accepted string and appended junk. -/
theorem claim6_witness :
    async_url_match "http://a.bc" = true ∧
    (async_url_match ("http://a.bc" ++ "!?junk") = true ∧
      validate_url "http://example.com" = true ∧
      validate_url ("http://example.com" ++ " hello") = false) :=
  ⟨by decide, claim6_anchoring "http://a.bc" "!?junk" (by decide)⟩

/-- Exit code and number of probe operations of one run of either program. -/
structure RunOutcome where
  exitCode : Nat
  probes : Nat
deriving DecidableEq

/-- `bench.py`: `parse_args` (lines 81-88) exits with status 1 when
`--count <= 0`, before any host is read or any network activity; `main`
(lines 199-233) then exits 1 on an empty host list, skips invalid URLs,
exits 1 when no valid URL remains, and otherwise issues `count` probes per
valid host and exits 0. -/
def benchRun (hosts : List String) (count : Int) : RunOutcome :=
  if count ≤ 0 then { exitCode := 1, probes := 0 }
  else if hosts = [] then { exitCode := 1, probes := 0 }
  else
    let valid := hosts.filter (fun h => validate_url h)
    if valid = [] then { exitCode := 1, probes := 0 }
    else { exitCode := 0, probes := valid.length * count.toNat }

/-- `bench_async.py` `main` (lines 115-151): there is no validation of
`--count`; invalid URLs are skipped, an empty valid list exits 1, and
otherwise `range(count)` requests are issued per valid URL (none when the
count is not positive) and the process exits 0. -/
def asyncRun (hosts : List String) (count : Int) : RunOutcome :=
  let valid := hosts.filter (fun u => async_url_match u)
  if valid = [] then { exitCode := 1, probes := 0 }
  else { exitCode := 0, probes := valid.length * count.toNat }

/-- Claim C7, counterexample: `bench_async.py` invoked with a valid host and
`--count 0` does not exit with a nonzero status — it runs zero probes and
exits 0, so "for every invocation with count <= 0 the program exits nonzero"
fails on that program. -/
theorem claim7_counterexample :
    asyncRun ["http://a.bc"] 0 = { exitCode := 0, probes := 0 } := by
  decide

/-- Claim C7, amended: in `bench.py` a run with `--count <= 0` exits with
status 1 and performs zero probe operations (the check sits in `parse_args`,
before any host handling or network activity); `bench_async.py` performs no
such check — with a non-positive count it issues zero probes per host and
does not fail because of the count. -/
theorem claim7_count_gate (hosts : List String) (count : Int) (h : count ≤ 0) :
    benchRun hosts count = { exitCode := 1, probes := 0 } ∧
    (asyncRun hosts count).probes = 0 := by
  constructor
  · simp [benchRun, h]
  · have h0 : count.toNat = 0 := Int.toNat_eq_zero.mpr h
    by_cases hv : hosts.filter (fun u => async_url_match u) = [] <;>
      simp [asyncRun, hv, h0]

/-- Witness for C7 at `--count 0` with one valid host. -/
theorem claim7_witness :
    (0 : Int) ≤ 0 ∧
    (benchRun ["http://a.bc"] 0 = { exitCode := 1, probes := 0 } ∧
      (asyncRun ["http://a.bc"] 0).probes = 0) :=
  ⟨le_refl 0, claim7_count_gate ["http://a.bc"] 0 (le_refl 0)⟩

/-- Abstract scheduler state of one run: how many probe tasks are still
waiting to issue their request, how many are in flight inside the HTTP
section, and how many have completed.  Tasks of a run are interchangeable,
so the multiset of task phases is as a triple of counters. -/
structure DispatchState where
  waiting : Nat
  inflight : Nat
  done : Nat
deriving DecidableEq

/-- One scheduler transition of the `bench_async.py` dispatcher: every
`make_request` wraps its HTTP call in `async with self.semaphore`, so a
waiting task may enter the in-flight section only while fewer than `cap`
tasks are inside, and an in-flight task may finish at any time (the permit is
released on every exit path of the `async with`). -/
inductive SemStep (cap : Nat) : DispatchState → DispatchState → Prop
  | start (w f d : Nat) : f < cap → SemStep cap ⟨w + 1, f, d⟩ ⟨w, f + 1, d⟩
  | finish (w f d : Nat) : SemStep cap ⟨w, f + 1, d⟩ ⟨w, f, d + 1⟩

/-- One scheduler transition of the `bench.py` dispatcher: `run_tests` gathers
all `fetch_url` tasks with no admission gate, so a waiting task may start
regardless of how many are in flight. -/
inductive GatherStep : DispatchState → DispatchState → Prop
  | start (w f d : Nat) : GatherStep ⟨w + 1, f, d⟩ ⟨w, f + 1, d⟩
  | finish (w f d : Nat) : GatherStep ⟨w, f + 1, d⟩ ⟨w, f, d + 1⟩

lemma gather_start_all (k : Nat) :
    ∀ w f d : Nat, Relation.ReflTransGen GatherStep ⟨w + k, f, d⟩ ⟨w, f + k, d⟩ := by
  induction k with
  | zero => intro w f d; exact Relation.ReflTransGen.refl
  | succ k ih =>
      intro w f d
      have e1 : w + (k + 1) = w + k + 1 := by omega
      rw [e1]
      have h1 : GatherStep ⟨w + k + 1, f, d⟩ ⟨w + k, f + 1, d⟩ := GatherStep.start (w + k) f d
      have h2 := ih w (f + 1) d
      have h3 : f + 1 + k = f + (k + 1) := by omega
      rw [h3] at h2
      exact Relation.ReflTransGen.head h1 h2

/-- Claim C4, counterexample: in `bench.py` a run of 11 hosts with one repeat
each (11 probes, exceeding the ceiling of 10) can reach a scheduler state with
all 11 probes simultaneously in flight — `run_tests` has no concurrency gate,
so the claimed ceiling does not hold for that program. -/
theorem claim4_counterexample :
    Relation.ReflTransGen GatherStep ⟨11, 0, 0⟩ ⟨0, 11, 0⟩ ∧
    (DispatchState.mk 0 11 0).inflight > 10 := by
  constructor
  · have := gather_start_all 11 0 0 0
    simpa using this
  · decide

/-- Claim C4, amended: in `bench_async.py` the `asyncio.Semaphore(10)` bounds
the in-flight probes: from any initial state with `n` waiting tasks and none
in flight, every reachable scheduler state has at most 10 probes in flight
(probes beyond the ceiling wait for a permit).  `bench.py` has no such bound. -/
theorem claim4_semaphore_bound (n : Nat) (s : DispatchState)
    (h : Relation.ReflTransGen (SemStep 10) ⟨n, 0, 0⟩ s) : s.inflight ≤ 10 := by
  have inv : ∀ s1 s2 : DispatchState,
      Relation.ReflTransGen (SemStep 10) s1 s2 → s1.inflight ≤ 10 → s2.inflight ≤ 10 := by
    intro s1 s2 hr
    induction hr with
    | refl => exact fun h1 => h1
    | tail _ hstep ih =>
        intro h1
        cases hstep with
        | start w f d hf => exact hf
        | finish w f d => have := ih h1; simp at this ⊢; omega
  exact inv _ _ h (by simp)

/-- Witness for C4: after one admitted start from three waiting tasks, one
probe is in flight, within the ceiling. -/
theorem claim4_witness :
    Relation.ReflTransGen (SemStep 10) ⟨3, 0, 0⟩ ⟨2, 1, 0⟩ ∧
    (DispatchState.mk 2 1 0).inflight ≤ 10 :=
  ⟨Relation.ReflTransGen.single (SemStep.start 2 0 0 (by decide)),
   claim4_semaphore_bound 3 ⟨2, 1, 0⟩
     (Relation.ReflTransGen.single (SemStep.start 2 0 0 (by decide)))⟩

/-- Membership query on the insertion-ordered `self.stats` dict of
`ServerBenchmark`, modelled as an association list (Python dicts preserve
insertion order). -/
def lookupHost : List (String × HostStats) → String → Option HostStats
  | [], _ => none
  | p :: ps, u => if u = p.1 then some p.2 else lookupHost ps u

/-- `test_host` (lines 132-147) for one validated target: the entry is created
on first sight of the URL (`if host not in self.stats`) and the batch of
results is folded into the entry; a duplicate URL reuses its existing entry. -/
def addBatch : List (String × HostStats) → String → List RequestResult →
    List (String × HostStats)
  | [], h, rs => [(h, foldResults (initStats h) rs)]
  | p :: ps, h, rs =>
      if h = p.1 then (p.1, foldResults p.2 rs) :: ps
      else p :: addBatch ps h rs

/-- `run_tests` (lines 149-152) processing the target list: each job is one
entry of the target list paired with the batch of results its probes produce;
`test_host` skips a job whose URL fails validation. -/
def runStatsFrom : List (String × HostStats) → List (String × List RequestResult) →
    List (String × HostStats)
  | acc, [] => acc
  | acc, j :: jobs =>
      runStatsFrom (if validate_url j.1 then addBatch acc j.1 j.2 else acc) jobs

def runStats (jobs : List (String × List RequestResult)) : List (String × HostStats) :=
  runStatsFrom [] jobs

/-- The host of each rendered block of `print_stats` (lines 154-168): one
block per entry of the stats dict, in insertion order. -/
def reportHosts (stats : List (String × HostStats)) : List String :=
  stats.map Prod.fst

def tfOpt : Option HostStats → Nat
  | none => 0
  | some st => totalFolded st

lemma lookupHost_addBatch (h : String) (rs : List RequestResult) :
    ∀ (acc : List (String × HostStats)) (u : String),
      lookupHost (addBatch acc h rs) u =
        if u = h then some (foldResults ((lookupHost acc h).getD (initStats h)) rs)
        else lookupHost acc u := by
  intro acc
  induction acc with
  | nil =>
      intro u
      by_cases hu : u = h
      · simp [addBatch, lookupHost, hu]
      · simp [addBatch, lookupHost, hu]
  | cons p ps ih =>
      intro u
      by_cases hp : h = p.1
      · by_cases hu : u = h
        · have hup : u = p.1 := hu.trans hp
          simp [addBatch, lookupHost, hp, hu, hup]
        · have hup : ¬u = p.1 := fun hc => hu (hc.trans hp.symm)
          simp [addBatch, lookupHost, hp, hu, hup]
      · by_cases hu : u = p.1
        · have huh : ¬u = h := fun hc => hp (by rw [← hc, hu])
          have hph : ¬p.1 = h := fun hc => hp hc.symm
          simp [addBatch, lookupHost, hp, hu, huh, hph]
        · have hlk : lookupHost (p :: ps) h = lookupHost ps h := by
            simp [lookupHost, hp]
          simp only [addBatch, if_neg hp, lookupHost, if_neg hu, hlk]
          exact ih u
  
lemma lookupHost_isSome_iff (acc : List (String × HostStats)) (u : String) :
    (lookupHost acc u).isSome = true ↔ u ∈ acc.map Prod.fst := by
  induction acc with
  | nil => simp [lookupHost]
  | cons p ps ih => by_cases hu : u = p.1 <;> simp [lookupHost, hu, ih]

lemma addBatch_keys (h : String) (rs : List RequestResult) :
    ∀ acc : List (String × HostStats),
      (addBatch acc h rs).map Prod.fst =
        if (lookupHost acc h).isSome then acc.map Prod.fst
        else acc.map Prod.fst ++ [h] := by
  intro acc
  induction acc with
  | nil => simp [addBatch, lookupHost]
  | cons p ps ih =>
      by_cases hp : h = p.1
      · simp [addBatch, lookupHost, hp]
      · have hlk : lookupHost (p :: ps) h = lookupHost ps h := by
          simp [lookupHost, hp]
        simp only [addBatch, if_neg hp, List.map_cons, hlk]
        rw [ih]
        split <;> simp

lemma addBatch_nodup (h : String) (rs : List RequestResult)
    (acc : List (String × HostStats)) (hnd : (acc.map Prod.fst).Nodup) :
    ((addBatch acc h rs).map Prod.fst).Nodup := by
  rw [addBatch_keys]
  split
  · exact hnd
  · rw [List.nodup_append]
    refine ⟨hnd, List.nodup_singleton h, ?_⟩
    intro a ha hb
    have : a = h := by simpa using hb
    subst this
    have : (lookupHost acc a).isSome = true := (lookupHost_isSome_iff acc a).mpr ha
    simp_all

lemma runStatsFrom_nodup :
    ∀ (jobs : List (String × List RequestResult)) (acc : List (String × HostStats)),
      (acc.map Prod.fst).Nodup → ((runStatsFrom acc jobs).map Prod.fst).Nodup := by
  intro jobs
  induction jobs with
  | nil => intro acc hnd; exact hnd
  | cons j jobs ih =>
      intro acc hnd
      simp only [runStatsFrom]
      by_cases hv : validate_url j.1
      · rw [if_pos hv]
        exact ih _ (addBatch_nodup j.1 j.2 acc hnd)
      · rw [if_neg hv]
        exact ih _ hnd

lemma runStatsFrom_isSome :
    ∀ (jobs : List (String × List RequestResult)) (acc : List (String × HostStats))
      (u : String),
      (lookupHost (runStatsFrom acc jobs) u).isSome = true ↔
        (lookupHost acc u).isSome = true ∨
          (validate_url u = true ∧ u ∈ jobs.map Prod.fst) := by
  intro jobs
  induction jobs with
  | nil => intro acc u; simp [runStatsFrom]
  | cons j jobs ih =>
      intro acc u
      simp only [runStatsFrom]
      rw [ih]
      by_cases hv : validate_url j.1
      · rw [if_pos hv]
        rw [lookupHost_addBatch]
        by_cases hu : u = j.1
        · subst hu
          simp [hv]
        · simp [hu]
      · rw [if_neg hv]
        by_cases hu : u = j.1
        · subst hu
          simp [hv]
        · simp [hu]

lemma foldResults_getD_total (o : Option HostStats) (h : String) (rs : List RequestResult) :
    totalFolded (foldResults (o.getD (initStats h)) rs) = tfOpt o + rs.length := by
  cases o with
  | none =>
      simp only [Option.getD_none, tfOpt]
      rw [foldResults_total]
      simp [totalFolded, initStats]
  | some st =>
      simp only [Option.getD_some, tfOpt]
      rw [foldResults_total]

lemma runStatsFrom_total (count : Nat) :
    ∀ (jobs : List (String × List RequestResult)) (acc : List (String × HostStats))
      (u : String), validate_url u = true → (∀ j ∈ jobs, (j.2).length = count) →
      tfOpt (lookupHost (runStatsFrom acc jobs) u)
        = tfOpt (lookupHost acc u) + count * (jobs.map Prod.fst).count u := by
  intro jobs
  induction jobs with
  | nil => intro acc u _ _; simp [runStatsFrom]
  | cons j jobs ih =>
      intro acc u hu hlen
      simp only [runStatsFrom]
      have hlen' : ∀ j2 ∈ jobs, (j2.2).length = count :=
        fun j2 hj => hlen j2 (List.mem_cons_of_mem _ hj)
      rw [ih _ u hu hlen']
      simp only [List.map_cons, List.count_cons]
      by_cases hv : validate_url j.1
      · rw [if_pos hv]
        rw [lookupHost_addBatch]
        by_cases huj : u = j.1
        · rw [if_pos huj]
          have h1 : tfOpt (some (foldResults ((lookupHost acc j.1).getD (initStats j.1)) j.2))
              = tfOpt (lookupHost acc j.1) + j.2.length := by
            simp only [tfOpt]
            exact foldResults_getD_total _ _ _
          rw [h1, hlen j (List.mem_cons_self _ _), huj]
          have : (u == j.1) = true := by simp [huj]
          rw [huj] at this
          simp [this]
          ring
        · rw [if_neg huj]
          have hbeq : (u == j.1) = false := by simp [huj]
          simp [hbeq]
          try exact Or.inl fun hc => huj hc.symm
      · rw [if_neg hv]
        have huj : ¬u = j.1 := by
          intro hc
          rw [← hc] at hv
          exact hv hu
        have hbeq : (u == j.1) = false := by simp [huj]
        simp [hbeq]
        try exact Or.inl fun hc => huj hc.symm

/-- Claim C10: the per-run stats of `bench.py` are keyed by the URL string:
the report has exactly one block per distinct validated URL (the key list has
no duplicates and contains exactly the validated URLs of the target list),
and a URL appearing `k` times in the target list, each batch contributing
`count` results, has all `k` batches folded into the single entry of that
URL, whose folded total is `k * count`. -/
theorem claim10_stats_keyed_by_url (jobs : List (String × List RequestResult))
    (count : Nat) (h : ∀ j ∈ jobs, (j.2).length = count) :
    (reportHosts (runStats jobs)).Nodup ∧
    (∀ u, u ∈ reportHosts (runStats jobs) ↔
        (validate_url u = true ∧ u ∈ jobs.map Prod.fst)) ∧
    (∀ u st, lookupHost (runStats jobs) u = some st →
        totalFolded st = count * (jobs.map Prod.fst).count u) := by
  refine ⟨?_, ?_, ?_⟩
  · exact runStatsFrom_nodup jobs [] (by simp)
  · intro u
    rw [reportHosts, ← lookupHost_isSome_iff]
    have := runStatsFrom_isSome jobs [] u
    simp only [runStats]
    rw [this]
    simp [lookupHost]
  · intro u st hst
    have hvalid : validate_url u = true := by
      have h1 := runStatsFrom_isSome jobs [] u
      simp only [runStats] at hst
      rcases h1.mp (by rw [hst]; rfl) with hc | hc
      · simp [lookupHost] at hc
      · exact hc.1
    have h2 := runStatsFrom_total count jobs [] u hvalid h
    simp only [runStats] at hst
    rw [hst] at h2
    simpa [tfOpt, lookupHost] using h2

/-- A target list naming the same URL twice, one timeout result per batch. -/
def twoDupJobs : List (String × List RequestResult) :=
  [("http://a.bc", [fetch_url "http://a.bc" .timeoutErr 1]),
   ("http://a.bc", [fetch_url "http://a.bc" .timeoutErr 1])]

/-- Witness for C10: the duplicated URL yields a single report block whose
entry holds 2 * 1 folded results. -/
theorem claim10_witness :
    (∀ j ∈ twoDupJobs, (j.2).length = 1) ∧
    reportHosts (runStats twoDupJobs) = ["http://a.bc"] ∧
    (∀ st, lookupHost (runStats twoDupJobs) "http://a.bc" = some st →
        totalFolded st = 2) := by
  refine ⟨by decide, by decide, ?_⟩
  intro st hst
  have h := (claim10_stats_keyed_by_url twoDupJobs 1 (by decide)).2.2 "http://a.bc" st hst
  rw [h]
  decide
